import Mathlib

/-
Verification of the wokwi_autoscript repository: a shallow embedding of the
two core subsystems (firmware discovery / configuration synchronization in
setup.py and the diagram retrieval pipeline in diagram.py and
Script/wokwi_standalone.py), together with theorems settling the stated
properties of the specification.

Strings are modelled by Lean `String` (a wrapper around `List Char`); the
Python string primitives used by the code (startswith, endswith, strip,
isdigit, split, lower, the `in` substring test, int()) are embedded as
executable functions over the underlying character lists.  The filesystem is
a partial map from path to file content, the network is a map from endpoint
URL to a response outcome, and user input is a finite list of prompt events.
-/

namespace Wokwi

/-- `leadMatch needle hay` is true iff `needle` is an initial segment of
`hay`; the building block for the Python string predicates below. -/
def leadMatch : List Char → List Char → Bool
  | [], _ => true
  | _ :: _, [] => false
  | a :: as, b :: bs => a == b && leadMatch as bs

/-- Models Python `s.startswith(p)`. -/
def strStarts (s p : String) : Bool := leadMatch p.data s.data

/-- Models Python `s.endswith(p)` (suffix test on the characters). -/
def strEnds (s p : String) : Bool := leadMatch p.data.reverse s.data.reverse

/-- Models Python `s.strip()`: drop whitespace from both ends. -/
def pyStrip (s : String) : String :=
  ⟨((s.data.dropWhile Char.isWhitespace).reverse.dropWhile Char.isWhitespace).reverse⟩

/-- Models Python `s.isdigit()`: nonempty and all digits. -/
def pyIsDigit (s : String) : Bool := !s.data.isEmpty && s.data.all Char.isDigit

/-- `subMatch needle hay` is true iff `needle` occurs contiguously in `hay`;
models Python `needle in hay` on strings. -/
def subMatch (needle : List Char) : List Char → Bool
  | [] => needle.isEmpty
  | c :: rest => leadMatch needle (c :: rest) || subMatch needle rest

/-- Models Python `needle in hay` for strings. -/
def strContainsSub (hay needle : String) : Bool := subMatch needle.data hay.data

/-- Models Python `s.lower()` (ASCII case folding). -/
def myLower (s : String) : String := ⟨s.data.map Char.toLower⟩

/-- Accumulator-based splitting of a character list on a separator; emits the
chunks between separator occurrences, keeping empty chunks, exactly like
Python `str.split(sep)` with a one-character separator. -/
def splitSepAux (sep : Char) : List Char → List Char → List (List Char)
  | [], acc => [acc.reverse]
  | c :: rest, acc =>
    if c = sep then acc.reverse :: splitSepAux sep rest []
    else splitSepAux sep rest (c :: acc)

/-- Split a character list on a separator character. -/
def splitSep (sep : Char) (s : List Char) : List (List Char) := splitSepAux sep s []

/-- Models Python `s.split(sep)` for a one-character separator. -/
def strSplitChar (sep : Char) (s : String) : List String :=
  (splitSep sep s.data).map (fun l => ⟨l⟩)

/- ----------------------------------------------------------------
   Reference Resolver
   (Script/wokwi_standalone.py `read_url_from_source`, lines 328-350,
    and diagram.py `read_url_from_file`, lines 26-44).
   ---------------------------------------------------------------- -/

/-- Filesystem model: path to text content; `none` when the file is absent. -/
abbrev FileSys := String → Option String

/-- The error raised by the standalone resolver when the reference file is
absent (`FileNotFoundError`). -/
inductive RefErr
  | fileNotFound
  deriving DecidableEq

/-- Script/wokwi_standalone.py lines 328-350 (`read_url_from_source`): a
string starting with "http" is returned as-is; otherwise it is a file path,
whose absence raises `FileNotFoundError`; the trimmed file content is
returned as-is when it has the canonical project-URL form, expanded through
the URL template when purely numeric, and otherwise returned unchanged. -/
def read_url_from_source (fs : FileSys) (input_source : String) :
    Except RefErr String :=
  if strStarts input_source "http" then .ok input_source
  else
    match fs input_source with
    | none => .error .fileNotFound
    | some content =>
      let url := pyStrip content
      if strStarts url "https://wokwi.com/projects/" then .ok url
      else if pyIsDigit url then .ok ("https://wokwi.com/projects/" ++ url)
      else .ok url

/-- diagram.py lines 26-44 (`read_url_from_file`): read the url file, trim
its content, return it only when it starts with the canonical prefix, and
signal an error (`None`) otherwise, also when the file is absent. -/
def read_url_from_file (fs : FileSys) (url_file : String) : Option String :=
  match fs url_file with
  | none => none
  | some content =>
    let url := pyStrip content
    if strStarts url "https://wokwi.com/projects/" then some url else none

/-- diagram.py line 152: the hardcoded fallback project reference. -/
def defaultProjectUrl : String := "https://wokwi.com/projects/443059386202798081"

/-- diagram.py `main`, lines 148-152: the reference handed to the retrieval
pipeline — the url read from the file, or the hardcoded default when the
read failed. -/
def diagramMainUrl (fs : FileSys) (url_file : String) : String :=
  match read_url_from_file fs url_file with
  | some u => u
  | none => defaultProjectUrl

/- ----------------------------------------------------------------
   Retrieval Pipeline (diagram.py `download_and_extract_diagram`,
   lines 46-141, and the standalone variant's archive step,
   Script/wokwi_standalone.py lines 376-392).
   ---------------------------------------------------------------- -/

/-- diagram.py line 58: the project id is the final `'/'`-separated segment
of the project URL (`project_url.split('/')[-1]`). -/
def projectId (url : String) : String := (strSplitChar '/' url).getLastD ""

/-- diagram.py lines 60-65: the fixed ordered candidate endpoint list. -/
def zip_endpoints (project_id : String) : List String :=
  [ "https://wokwi.com/api/projects/" ++ project_id ++ "/zip"
  , "https://wokwi.com/projects/" ++ project_id ++ "/zip"
  , "https://wokwi.com/projects/" ++ project_id ++ "/download"
  , "https://wokwi.com/api/projects/" ++ project_id ++ "/export/zip" ]

/-- diagram.py lines 82-83: a content-type is acceptable when its
lower-cased form contains "zip" or "octet-stream". -/
def ctypeAccepted (ct : String) : Bool :=
  strContainsSub (myLower ct) "zip" || strContainsSub (myLower ct) "octet-stream"

/-- Result of opening the downloaded bytes as a zip archive: the entry list
(name, byte content), or a `zipfile.BadZipFile` failure. -/
inductive ZipData
  | good (entries : List (String × List Nat))
  | corrupt
  deriving DecidableEq

/-- Result of streaming a response body to the temporary file: the complete
bytes (then opened as a zip), or an exception partway through the chunk
loop (surfacing as a `requests` exception). -/
inductive StreamResult
  | streamed (z : ZipData)
  | failsMidway
  deriving DecidableEq

/-- Outcome of `requests.get` on one endpoint: an exception at request time,
or a response with a status code, a content-type header and a body. -/
inductive Outcome
  | requestError
  | resp (status : Nat) (contentType : String) (stream : StreamResult)
  deriving DecidableEq

/-- Network model: endpoint URL to outcome. -/
abbrev World := String → Outcome

/-- Observable effects of one execution of the retrieval pipeline. -/
structure ExecResult where
  /-- the boolean the function returns -/
  success : Bool
  /-- endpoints passed to `requests.get`, in order -/
  contacted : List String
  /-- files written to the working directory (name, bytes) -/
  writesOut : List (String × List Nat)
  /-- temporary archive files created -/
  tempsCreated : Nat
  /-- temporary archive files deleted again -/
  tempsDeleted : Nat

/-- diagram.py lines 94-109, the pure core of the extraction step: among the
archive's entries, those whose name ends with "diagram.json" are collected,
the first is taken, and exactly its bytes are written to the fixed output
name; with no such entry nothing is written and the step fails. -/
def extractStep (entries : List (String × List Nat)) :
    List (String × List Nat) × Bool :=
  match (entries.filter (fun f => strEnds f.1 "diagram.json")).head? with
  | some e => ([("diagram.json", e.2)], true)
  | none => ([], false)

/-- The acceptance test of diagram.py lines 80-83: status 200 and an
acceptable content-type. -/
def respAccepted : Outcome → Bool
  | .resp st ct _ => (st == 200) && ctypeAccepted ct
  | .requestError => false

/-- Whether an outcome's body stream fails partway through. -/
def streamFails : Outcome → Bool
  | .resp _ _ .failsMidway => true
  | _ => false

/-- diagram.py lines 76-137: the candidate loop.  Each endpoint is requested
in order; a request exception continues with the next candidate; a response
is processed only at status 200 with an acceptable content-type, in which
case the body is streamed to a temporary file (a stream failure is caught by
the per-endpoint handler and the loop continues, leaving the temporary file
behind); a corrupt archive or an archive without a matching entry deletes
the temporary file (the `finally` block) and continues; a successful
extraction writes the output, deletes the temporary file and returns True.
After the single pass the function returns False. -/
def runLoop (w : World) : List String → ExecResult
  | [] => ⟨false, [], [], 0, 0⟩
  | e :: rest =>
    match w e with
    | .requestError =>
      let r := runLoop w rest
      ⟨r.success, e :: r.contacted, r.writesOut, r.tempsCreated, r.tempsDeleted⟩
    | .resp st ct stream =>
      if st == 200 then
        if ctypeAccepted ct then
          match stream with
          | .failsMidway =>
            let r := runLoop w rest
            ⟨r.success, e :: r.contacted, r.writesOut,
              r.tempsCreated + 1, r.tempsDeleted⟩
          | .streamed .corrupt =>
            let r := runLoop w rest
            ⟨r.success, e :: r.contacted, r.writesOut,
              r.tempsCreated + 1, r.tempsDeleted + 1⟩
          | .streamed (.good entries) =>
            match extractStep entries with
            | (ws, true) => ⟨true, [e], ws, 1, 1⟩
            | (_, false) =>
              let r := runLoop w rest
              ⟨r.success, e :: r.contacted, r.writesOut,
                r.tempsCreated + 1, r.tempsDeleted + 1⟩
        else
          let r := runLoop w rest
          ⟨r.success, e :: r.contacted, r.writesOut,
            r.tempsCreated, r.tempsDeleted⟩
      else
        let r := runLoop w rest
        ⟨r.success, e :: r.contacted, r.writesOut,
          r.tempsCreated, r.tempsDeleted⟩

/-- diagram.py `download_and_extract_diagram`: derive the project id, build
the candidate list and run the loop over it. -/
def download_and_extract_diagram (w : World) (project_url : String) : ExecResult :=
  runLoop w (zip_endpoints (projectId project_url))

/-- Script/wokwi_standalone.py lines 376-392: the standalone variant's
archive step tests `'diagram.json' in zip_ref.namelist()` — an exact-name
membership test — and extracts that entry when present. -/
def standaloneExtractStep (entries : List (String × List Nat)) :
    List (String × List Nat) × Bool :=
  match entries.find? (fun f => f.1 == "diagram.json") with
  | some e => ([("diagram.json", e.2)], true)
  | none => ([], false)

/- ----------------------------------------------------------------
   Group Selector (setup.py `select_firmware_group`, lines 116-164,
   identically embedded in Script/wokwi_standalone.py lines 164-211).
   ---------------------------------------------------------------- -/

/-- One firmware group as built by `group_firmware_files`: its base name,
parent directory, and the modification timestamps of its `.bin` and `.elf`
members (`stat().st_mtime`, modelled as integers; pre-epoch timestamps are
nonpositive). -/
structure FwGroup where
  /-- the group's base name -/
  name : String
  /-- the group's parent directory rendered as a string -/
  dir : String
  /-- modification timestamp of the `.bin` member -/
  binTime : Int
  /-- modification timestamp of the `.elf` member -/
  elfTime : Int
  deriving DecidableEq

/-- setup.py line 148: the later of a group's two modification timestamps. -/
def laterTime (g : FwGroup) : Int := max g.binTime g.elfTime

/-- The loop body of setup.py lines 145-152: replace the best group seen so
far when the candidate's later timestamp strictly exceeds the best time. -/
def selStep (acc : Option FwGroup × Int) (g : FwGroup) : Option FwGroup × Int :=
  if laterTime g > acc.2 then (some g, laterTime g) else acc

/-- setup.py lines 141-154, the automatic (empty-choice) selection: scan all
groups starting from `latest_group = None`, `latest_time = 0` and return the
group recorded at the end. -/
def selectLatest (gs : List FwGroup) : Option FwGroup :=
  (gs.foldl selStep (none, 0)).1

/-- Numeric value of a digit list, most significant first. -/
def digitsVal (ds : List Char) : Nat :=
  ds.foldl (fun n c => n * 10 + (c.toNat - 48)) 0

/-- Models Python `int(s)` on an already-stripped string: an optional sign
followed by at least one decimal digit, `none` (a `ValueError`) otherwise. -/
def pyIntOpt (s : String) : Option Int :=
  match s.data with
  | [] => none
  | '-' :: ds =>
    if !ds.isEmpty && ds.all Char.isDigit then some (-(digitsVal ds : Int)) else none
  | '+' :: ds =>
    if !ds.isEmpty && ds.all Char.isDigit then some ((digitsVal ds : Int)) else none
  | ds => if ds.all Char.isDigit then some ((digitsVal ds : Int)) else none

/-- One event at the interactive prompt: an entered line, or a
`KeyboardInterrupt` raised during `input()`. -/
inductive UserInput
  | str (s : String)
  | interrupt
  deriving DecidableEq

/-- setup.py lines 136-164, the `while True` prompt loop over a finite
script of prompt events.  The result is `none` when the script is exhausted
(the real loop would still be prompting), `some none` when the function
returns `None`, and `some (some g)` when it returns group `g`.  An empty
entry takes the automatic selection; a parsed in-range number returns that
group; a parsed out-of-range number re-prompts; a `ValueError` from parsing
and a `KeyboardInterrupt` are caught together and return `None`. -/
def selLoop (gs : List FwGroup) : List UserInput → Option (Option FwGroup)
  | [] => none
  | .interrupt :: _ => some none
  | .str s :: rest =>
    let c := pyStrip s
    if c = "" then some (selectLatest gs)
    else
      match pyIntOpt c with
      | none => some none
      | some n =>
        if 1 ≤ n ∧ n ≤ (gs.length : Int) then some (gs.get? ((n - 1).toNat))
        else selLoop gs rest

/-- setup.py `select_firmware_group`, lines 116-164: `None` for an empty
collection, the unique group without interaction, and otherwise the prompt
loop over the menu of groups. -/
def select_firmware_group (gs : List FwGroup) (inputs : List UserInput) :
    Option (Option FwGroup) :=
  if gs.isEmpty then some none
  else if gs.length == 1 then some gs.head?
  else selLoop gs inputs

/- ----------------------------------------------------------------
   Config Writer paths (setup.py `create_relative_path`, lines 166-169,
   used by `update_wokwi_toml`, lines 171-200).
   ---------------------------------------------------------------- -/

/-- A filesystem path as its list of components (each component the
character list of one name); both artifact paths and the working directory
are absolute, normalized component lists. -/
abbrev PathC := List (List Char)

/-- The parent-directory component `".."`. -/
def dotdot : List Char := ['.', '.']

/-- Length of the common leading run of equal components of two paths. -/
def commonPrefixLen : PathC → PathC → Nat
  | a :: as, b :: bs => if a = b then commonPrefixLen as bs + 1 else 0
  | _, _ => 0

/-- `os.path.relpath(target, start)` on normalized absolute component
paths: strip the common leading components, go up once per remaining
`start` component, then down the remaining `target` components; the current
directory when nothing remains. -/
def relpathComps (target start : PathC) : PathC :=
  let k := commonPrefixLen target start
  let r := List.replicate (start.length - k) dotdot ++ target.drop k
  if r = [] then [['.']] else r

/-- Render a component path with the given separator character, as the host
`os.path` would. -/
def renderSep (sep : Char) : PathC → List Char
  | [] => []
  | [c] => c
  | c :: c2 :: rest => c ++ sep :: renderSep sep (c2 :: rest)

/-- setup.py line 169, `rel_path.replace('/', '\\')`: every forward slash
becomes a backslash. -/
def winNormalize (s : List Char) : List Char :=
  s.map (fun ch => if ch = '/' then '\\' else ch)

/-- setup.py `create_relative_path`, lines 166-169: the relative path from
`from_dir` to `to_file` rendered with the host separator, then normalized to
backslashes.  `hostSep` is the host platform's separator convention. -/
def create_relative_path (hostSep : Char) (from_dir to_file : PathC) : List Char :=
  winNormalize (renderSep hostSep (relpathComps to_file from_dir))

/-- Re-resolution of a parsed relative path against a working directory:
each `".."` component discards the last directory, every other component
descends into it. -/
def resolveRel (cwd : PathC) (cs : PathC) : PathC :=
  cs.foldl (fun acc c => if c = dotdot then acc.dropLast else acc ++ [c]) cwd

/-- A well-formed path component: free of both separator characters and not
the parent-directory marker. -/
abbrev wfComp (c : List Char) : Prop := '/' ∉ c ∧ '\\' ∉ c ∧ c ≠ dotdot

/-- All components of the path are well-formed. -/
abbrev wfPath (p : PathC) : Prop := ∀ c ∈ p, wfComp c

/- ----------------------------------------------------------------
   Artifact Scanner (setup.py `scan_for_firmware_files`, lines 28-68).
   ---------------------------------------------------------------- -/

/-- One component of a glob pattern: `deep` is `"**"` (zero or more
directory components), `lit` a literal name, `star` the wildcard `"*<ext>"`
matching any name with the given ending. -/
inductive PatComp
  | deep
  | lit (s : String)
  | star (ext : String)
  deriving DecidableEq

/-- Glob matching of a pattern against a path's component list, with
pathlib's pre-3.13 semantics: `"**"` matches zero or more components (also
hidden ones), a literal component matches by equality, and `"*<ext>"`
matches one component ending in `<ext>`. -/
def globMatch : List PatComp → List String → Bool
  | [], cs => cs.isEmpty
  | .deep :: ps, cs => cs.tails.any (fun t => globMatch ps t)
  | .lit s :: ps, cs =>
    match cs with
    | [] => false
    | c :: rest => (c == s) && globMatch ps rest
  | .star ext :: ps, cs =>
    match cs with
    | [] => false
    | c :: rest => strEnds c ext && globMatch ps rest

/-- `Path.rglob(pattern)` is `glob("**/" + pattern)`: matching is the
pattern with a leading `"**"` component. -/
def rglobMatch (pat : List PatComp) (p : List String) : Bool :=
  globMatch (.deep :: pat) p

/-- setup.py lines 44-49: the debug/build convention patterns. -/
def debug_patterns : List (List PatComp) :=
  [ [.deep, .lit "Debug", .deep, .star ".bin"]
  , [.deep, .lit "Debug", .deep, .star ".elf"]
  , [.deep, .lit "build", .deep, .star ".bin"]
  , [.deep, .lit "build", .deep, .star ".elf"] ]

/-- setup.py lines 58-61: the PlatformIO build convention patterns. -/
def pio_patterns : List (List PatComp) :=
  [ [.deep, .lit ".pio", .lit "build", .deep, .star ".bin"]
  , [.deep, .lit ".pio", .lit "build", .deep, .star ".elf"] ]

/-- setup.py `scan_for_firmware_files`, lines 28-68: for each pattern of the
two fixed lists in turn, append every file of the tree matched by
`rglob`.  The tree is the list of file paths (component lists) below the
search root, in traversal order; `is_file` holds of all of them. -/
def scan_for_firmware_files (tree : List (List String)) : List (List String) :=
  (debug_patterns.map (fun pat => tree.filter (fun f => rglobMatch pat f))).flatten
    ++ (pio_patterns.map (fun pat => tree.filter (fun f => rglobMatch pat f))).flatten

/- ================================================================
   Theorems
   ================================================================ -/

/-- C1: the claim is false on the code.  A reference file whose content
"garbage" neither begins with a recognized URL scheme (it does not even
start with "http") nor is purely numeric is resolved by
`read_url_from_source` to `ok "garbage"` — the unrecognized string is
returned as the canonical project reference, with no error. -/
theorem C1_counterexample :
    read_url_from_source (fun p => if p = "url.txt" then some "garbage" else none)
        "url.txt" = Except.ok "garbage"
    ∧ strStarts "garbage" "http" = false
    ∧ strStarts "garbage" "https://wokwi.com/projects/" = false
    ∧ pyIsDigit "garbage" = false := by
  exact ⟨rfl, rfl, rfl, rfl⟩

/-- C1 (amended): for file content whose trimmed form neither starts with
the canonical URL prefix nor is purely numeric, diagram.py's
`read_url_from_file` does surface an error (returns `None`), but the
standalone `read_url_from_source` passes the trimmed content through
unchanged as the reference instead of rejecting it. -/
theorem C1_main (fs : FileSys) (input content : String)
    (hdirect : strStarts input "http" = false)
    (hfs : fs input = some content)
    (hurl : strStarts (pyStrip content) "https://wokwi.com/projects/" = false)
    (hnum : pyIsDigit (pyStrip content) = false) :
    read_url_from_source fs input = Except.ok (pyStrip content)
    ∧ read_url_from_file fs input = none := by
  unfold read_url_from_source read_url_from_file
  rw [hfs, hdirect]
  simp [hurl, hnum]

/-- C1 witness: the amended statement evaluated at a concrete filesystem
holding an unrecognized reference string. -/
theorem C1_witness :
    read_url_from_source (fun p => if p = "u.txt" then some " not-a-ref " else none)
        "u.txt" = Except.ok "not-a-ref"
    ∧ read_url_from_file (fun p => if p = "u.txt" then some " not-a-ref " else none)
        "u.txt" = none :=
  C1_main (fun p => if p = "u.txt" then some " not-a-ref " else none)
    "u.txt" " not-a-ref " (by decide) rfl (by decide) (by decide)

/-- C5: the claim is false on diagram.py.  When the url file is absent,
`main` does not fail with FileNotFound: the reference is silently replaced
by the hardcoded default project URL and retrieval proceeds with it. -/
theorem C5_counterexample :
    read_url_from_file (fun _ => none) "url.txt" = none
    ∧ diagramMainUrl (fun _ => none) "url.txt"
        = "https://wokwi.com/projects/443059386202798081" :=
  ⟨rfl, rfl⟩

/-- C5 (amended): in the standalone resolver a missing reference file is a
`FileNotFoundError` and no reference is produced, while in diagram.py the
missing url file is silently replaced by the default project reference,
with which retrieval proceeds. -/
theorem C5_main (fs : FileSys) (p f : String)
    (hp : strStarts p "http" = false) (hmiss : fs p = none) (hmiss2 : fs f = none) :
    read_url_from_source fs p = Except.error RefErr.fileNotFound
    ∧ diagramMainUrl fs f = defaultProjectUrl := by
  constructor
  · unfold read_url_from_source
    rw [hp, hmiss]
    simp
  · unfold diagramMainUrl read_url_from_file
    rw [hmiss2]

/-- C5 witness: the amended statement evaluated at the empty filesystem. -/
theorem C5_witness :
    read_url_from_source (fun _ => none) "url.txt" = Except.error RefErr.fileNotFound
    ∧ diagramMainUrl (fun _ => none) "url.txt" = defaultProjectUrl :=
  C5_main (fun _ => none) "url.txt" "url.txt" (by decide) rfl rfl

/-- Helper: over any candidate list, the contacted endpoints form an
initial segment of the list, and equal the whole list when the run fails. -/
theorem runLoop_contacted (w : World) : ∀ es : List String,
    (∃ k, (runLoop w es).contacted = es.take k)
    ∧ ((runLoop w es).success = false → (runLoop w es).contacted = es) := by
  intro es
  induction es with
  | nil => exact ⟨⟨0, rfl⟩, fun _ => rfl⟩
  | cons e rest ih =>
    obtain ⟨⟨k, hk⟩, hfail⟩ := ih
    have hcont :
        ∀ tc td : Nat,
          (∃ k, (ExecResult.mk (runLoop w rest).success (e :: (runLoop w rest).contacted)
              (runLoop w rest).writesOut tc td).contacted = (e :: rest).take k)
          ∧ ((ExecResult.mk (runLoop w rest).success (e :: (runLoop w rest).contacted)
              (runLoop w rest).writesOut tc td).success = false →
            (ExecResult.mk (runLoop w rest).success (e :: (runLoop w rest).contacted)
              (runLoop w rest).writesOut tc td).contacted = e :: rest) := by
      intro tc td
      refine ⟨⟨k + 1, ?_⟩, fun hs => ?_⟩
      · simp [List.take_succ_cons, hk]
      · simp at hs
        simp [hfail hs]
    simp only [runLoop]
    cases hw : w e with
    | requestError => exact hcont _ _
    | resp st ct stream =>
      by_cases h200 : (st == 200) = true
      · simp only [h200, if_true]
        by_cases hct : ctypeAccepted ct = true
        · simp only [hct, if_true]
          cases stream with
          | failsMidway => exact hcont _ _
          | streamed z =>
            cases z with
            | corrupt => exact hcont _ _
            | good entries =>
              dsimp only
              rcases hex : extractStep entries with ⟨ws, b⟩
              cases b with
              | true =>
                refine ⟨⟨1, rfl⟩, fun hs => ?_⟩
                simp at hs
              | false => exact hcont _ _
        · simp only [hct, if_false]
          exact hcont _ _
      · simp only [h200, if_false]
        exact hcont _ _

/-- Helper: the four candidate endpoints are pairwise distinct (their
lengths already differ), for every project id. -/
theorem zip_endpoints_nodup (pid : String) : (zip_endpoints pid).Nodup := by
  have hne : ∀ a b : String, a.length ≠ b.length → a ≠ b := by
    intro a b hl he
    exact hl (congrArg String.length he)
  have h1 : ("https://wokwi.com/api/projects/" : String).length = 31 := rfl
  have h2 : ("https://wokwi.com/projects/" : String).length = 27 := rfl
  have hz : ("/zip" : String).length = 4 := rfl
  have hd : ("/download" : String).length = 9 := rfl
  have hx : ("/export/zip" : String).length = 11 := rfl
  have ne12 : "https://wokwi.com/api/projects/" ++ pid ++ "/zip"
      ≠ "https://wokwi.com/projects/" ++ pid ++ "/zip" :=
    hne _ _ (by simp only [String.length_append, h1, h2, hz]; omega)
  have ne13 : "https://wokwi.com/api/projects/" ++ pid ++ "/zip"
      ≠ "https://wokwi.com/projects/" ++ pid ++ "/download" :=
    hne _ _ (by simp only [String.length_append, h1, h2, hz, hd]; omega)
  have ne14 : "https://wokwi.com/api/projects/" ++ pid ++ "/zip"
      ≠ "https://wokwi.com/api/projects/" ++ pid ++ "/export/zip" :=
    hne _ _ (by simp only [String.length_append, h1, hz, hx]; omega)
  have ne23 : "https://wokwi.com/projects/" ++ pid ++ "/zip"
      ≠ "https://wokwi.com/projects/" ++ pid ++ "/download" :=
    hne _ _ (by simp only [String.length_append, h2, hz, hd]; omega)
  have ne24 : "https://wokwi.com/projects/" ++ pid ++ "/zip"
      ≠ "https://wokwi.com/api/projects/" ++ pid ++ "/export/zip" :=
    hne _ _ (by simp only [String.length_append, h1, h2, hz, hx]; omega)
  have ne34 : "https://wokwi.com/projects/" ++ pid ++ "/download"
      ≠ "https://wokwi.com/api/projects/" ++ pid ++ "/export/zip" :=
    hne _ _ (by simp only [String.length_append, h1, h2, hd, hx]; omega)
  simp [zip_endpoints, List.nodup_cons, ne12, ne13, ne14, ne23, ne24, ne34]

/-- C2: the claim is false on the code.  In a world where the first
candidate endpoint answers 200 with a zip content-type but the archive
holds no entry ending in "diagram.json", the first candidate's response is
accepted, and yet every later candidate is still contacted: the claim's
"once a candidate's response is accepted, no later candidate is contacted,
regardless of what happens during extraction" fails. -/
theorem C2_counterexample :
    respAccepted ((fun e =>
        if e = "https://wokwi.com/api/projects/123/zip" then
          Outcome.resp 200 "application/zip" (.streamed (.good [("other.txt", [0])]))
        else Outcome.requestError) "https://wokwi.com/api/projects/123/zip") = true
    ∧ (download_and_extract_diagram (fun e =>
        if e = "https://wokwi.com/api/projects/123/zip" then
          Outcome.resp 200 "application/zip" (.streamed (.good [("other.txt", [0])]))
        else Outcome.requestError) "https://wokwi.com/projects/123").contacted
      = [ "https://wokwi.com/api/projects/123/zip"
        , "https://wokwi.com/projects/123/zip"
        , "https://wokwi.com/projects/123/download"
        , "https://wokwi.com/api/projects/123/export/zip" ] := by
  constructor
  · decide
  · decide

/-- C2 (amended): candidates are tried in their fixed order in a single
pass with no retries — the contacted endpoints always form an initial
segment of the duplicate-free candidate list — and on overall failure every
candidate was contacted exactly once; but acceptance alone does not end the
pass: only a successful extraction does. -/
theorem C2_main (w : World) (url : String) :
    (∃ k, (download_and_extract_diagram w url).contacted
        = (zip_endpoints (projectId url)).take k)
    ∧ ((download_and_extract_diagram w url).success = false →
        (download_and_extract_diagram w url).contacted = zip_endpoints (projectId url))
    ∧ (zip_endpoints (projectId url)).Nodup := by
  refine ⟨(runLoop_contacted w _).1, (runLoop_contacted w _).2, zip_endpoints_nodup _⟩

/-- C2 witness: in a world where every request fails, the run fails and the
contacted list is exactly the four candidates. -/
theorem C2_witness :
    (download_and_extract_diagram (fun _ => Outcome.requestError)
        "https://wokwi.com/projects/123").contacted = zip_endpoints "123" :=
  (C2_main (fun _ => Outcome.requestError) "https://wokwi.com/projects/123").2.1
    (by decide)

/-- C3: the claim is false on the standalone variant it cites.  On an
archive with entries ["sub/dir/diagram.json", "other.txt"], a nested entry
whose name ends with the target filename exists, yet the standalone
extraction step (an exact-name membership test) writes nothing and fails
rather than finding it. -/
theorem C3_counterexample :
    standaloneExtractStep [("sub/dir/diagram.json", [1]), ("other.txt", [2])]
      = ([], false)
    ∧ strEnds "sub/dir/diagram.json" "diagram.json" = true := by
  constructor
  · decide
  · decide

/-- C3 (amended): diagram.py's extraction behaves as claimed — it selects
the first entry whose name ends with "diagram.json" (also one nested in a
subdirectory), writes exactly that entry's bytes to the fixed output name
and nothing else, and fails when no entry name has the suffix — while the
standalone variant's step succeeds exactly when some entry is named
literally "diagram.json". -/
theorem C3_main (entries pre suf : List (String × List Nat))
    (e : String × List Nat) :
    (entries = pre ++ e :: suf →
      (∀ x ∈ pre, strEnds x.1 "diagram.json" = false) →
      strEnds e.1 "diagram.json" = true →
      extractStep entries = ([("diagram.json", e.2)], true))
    ∧ ((∀ x ∈ entries, strEnds x.1 "diagram.json" = false) →
        extractStep entries = ([], false))
    ∧ ((standaloneExtractStep entries).2 = true ↔
        ∃ x ∈ entries, x.1 = "diagram.json") := by
  refine ⟨?_, ?_, ?_⟩
  · intro hsplit hpre he
    subst hsplit
    unfold extractStep
    have hp : (pre.filter (fun f => strEnds f.1 "diagram.json")) = [] :=
      List.filter_eq_nil_iff.mpr (by simpa using hpre)
    rw [List.filter_append, hp, List.nil_append, List.filter_cons_of_pos (by simpa using he)]
    rfl
  · intro hall
    unfold extractStep
    have hp : (entries.filter (fun f => strEnds f.1 "diagram.json")) = [] :=
      List.filter_eq_nil_iff.mpr (by simpa using hall)
    rw [hp]
    rfl
  · unfold standaloneExtractStep
    cases hf : entries.find? (fun f => f.1 == "diagram.json") with
    | none =>
      refine ⟨fun h => ?_, fun hex2 => ?_⟩
      · simp at h
      · obtain ⟨x, hx, hx1⟩ := hex2
        have hnone := List.find?_eq_none.mp hf x hx
        simp [hx1] at hnone
    | some a =>
      refine ⟨fun _ => ?_, fun _ => rfl⟩
      refine ⟨a, List.mem_of_find?_eq_some hf, ?_⟩
      have := List.find?_some hf
      simpa using this

/-- C3 witness: the amended statement evaluated on an archive nesting the
target under a subdirectory behind a non-matching entry. -/
theorem C3_witness :
    extractStep [("other.txt", [9]), ("sub/dir/diagram.json", [1, 2])]
      = ([("diagram.json", [1, 2])], true) :=
  (C3_main [("other.txt", [9]), ("sub/dir/diagram.json", [1, 2])]
      [("other.txt", [9])] [] ("sub/dir/diagram.json", [1, 2])).1
    rfl (by decide) (by decide)

/-- Helper: temporary files are all deleted when no accepted body stream
fails midway, and none is created when no response is accepted. -/
theorem runLoop_temps (w : World) : ∀ es : List String,
    ((∀ e ∈ es, streamFails (w e) = false) →
      (runLoop w es).tempsDeleted = (runLoop w es).tempsCreated)
    ∧ ((∀ e ∈ es, respAccepted (w e) = false) → (runLoop w es).tempsCreated = 0) := by
  intro es
  induction es with
  | nil => exact ⟨fun _ => rfl, fun _ => rfl⟩
  | cons e rest ih =>
    obtain ⟨ihdel, ihcre⟩ := ih
    simp only [runLoop]
    cases hw : w e with
    | requestError =>
      refine ⟨fun h => ?_, fun h => ?_⟩
      · exact ihdel (fun x hx => h x (List.mem_cons_of_mem _ hx))
      · exact ihcre (fun x hx => h x (List.mem_cons_of_mem _ hx))
    | resp st ct stream =>
      by_cases h200 : (st == 200) = true
      · simp only [h200, if_true]
        by_cases hct : ctypeAccepted ct = true
        · simp only [hct, if_true]
          cases stream with
          | failsMidway =>
            refine ⟨fun h => ?_, fun h => ?_⟩
            · have := h e (List.mem_cons_self e rest)
              rw [hw] at this
              simp [streamFails] at this
            · have := h e (List.mem_cons_self e rest)
              rw [hw] at this
              simp [respAccepted, h200, hct] at this
          | streamed z =>
            cases z with
            | corrupt =>
              refine ⟨fun h => ?_, fun h => ?_⟩
              · simp [ihdel (fun x hx => h x (List.mem_cons_of_mem _ hx))]
              · have := h e (List.mem_cons_self e rest)
                rw [hw] at this
                simp [respAccepted, h200, hct] at this
            | good entries =>
              dsimp only
              rcases hex : extractStep entries with ⟨ws, b⟩
              cases b with
              | true =>
                refine ⟨fun h => rfl, fun h => ?_⟩
                have := h e (List.mem_cons_self e rest)
                rw [hw] at this
                simp [respAccepted, h200, hct] at this
              | false =>
                refine ⟨fun h => ?_, fun h => ?_⟩
                · simp [ihdel (fun x hx => h x (List.mem_cons_of_mem _ hx))]
                · have := h e (List.mem_cons_self e rest)
                  rw [hw] at this
                  simp [respAccepted, h200, hct] at this
        · simp only [hct, if_false]
          refine ⟨fun h => ?_, fun h => ?_⟩
          · exact ihdel (fun x hx => h x (List.mem_cons_of_mem _ hx))
          · exact ihcre (fun x hx => h x (List.mem_cons_of_mem _ hx))
      · simp only [h200, if_false]
        refine ⟨fun h => ?_, fun h => ?_⟩
        · exact ihdel (fun x hx => h x (List.mem_cons_of_mem _ hx))
        · exact ihcre (fun x hx => h x (List.mem_cons_of_mem _ hx))

/-- C4: the claim is false on the code.  In a world where the first
candidate is accepted but its body stream fails midway, a temporary archive
file is created and never deleted before the operation returns: the caught
stream exception bypasses the extraction block's cleanup. -/
theorem C4_counterexample :
    (download_and_extract_diagram (fun e =>
        if e = "https://wokwi.com/api/projects/123/zip" then
          Outcome.resp 200 "application/zip" StreamResult.failsMidway
        else Outcome.requestError) "https://wokwi.com/projects/123").tempsCreated = 1
    ∧ (download_and_extract_diagram (fun e =>
        if e = "https://wokwi.com/api/projects/123/zip" then
          Outcome.resp 200 "application/zip" StreamResult.failsMidway
        else Outcome.requestError) "https://wokwi.com/projects/123").tempsDeleted = 0 := by
  constructor
  · decide
  · decide

/-- C4 (amended): whenever no accepted body stream fails midway — so on
success, on corrupt archives, on archives without the target entry, and
when every candidate is rejected — every temporary archive file created is
deleted before the operation returns; and when every candidate's response
is rejected no temporary file is created at all.  The remaining path, a
body stream failing partway, leaks the temporary file. -/
theorem C4_main (w : World) (url : String)
    (hstream : ∀ e ∈ zip_endpoints (projectId url), streamFails (w e) = false) :
    (download_and_extract_diagram w url).tempsDeleted
      = (download_and_extract_diagram w url).tempsCreated
    ∧ ((∀ e ∈ zip_endpoints (projectId url), respAccepted (w e) = false) →
        (download_and_extract_diagram w url).tempsCreated = 0) := by
  exact ⟨(runLoop_temps w _).1 hstream, fun h => (runLoop_temps w _).2 h⟩

/-- C4 witness: the amended statement evaluated in a world where every
request fails. -/
theorem C4_witness :
    (download_and_extract_diagram (fun _ => Outcome.requestError)
        "https://wokwi.com/projects/123").tempsDeleted
      = (download_and_extract_diagram (fun _ => Outcome.requestError)
        "https://wokwi.com/projects/123").tempsCreated
    ∧ (download_and_extract_diagram (fun _ => Outcome.requestError)
        "https://wokwi.com/projects/123").tempsCreated = 0 := by
  have h := C4_main (fun _ => Outcome.requestError)
    "https://wokwi.com/projects/123" (by decide)
  exact ⟨h.1, h.2 (by decide)⟩

/-- Helper: the selection fold leaves its accumulator unchanged when no
candidate's later timestamp strictly exceeds the accumulated time. -/
theorem selStep_const (gs : List FwGroup) : ∀ (a : Option FwGroup) (t : Int),
    (∀ g ∈ gs, laterTime g ≤ t) → gs.foldl selStep (a, t) = (a, t) := by
  induction gs with
  | nil => intro a t _; rfl
  | cons g rest ih =>
    intro a t h
    have hg : laterTime g ≤ t := h g (List.mem_cons_self g rest)
    have hstep : selStep (a, t) g = (a, t) := by
      unfold selStep
      rw [if_neg (by simp only; omega)]
    rw [List.foldl_cons, hstep]
    exact ih a t (fun x hx => h x (List.mem_cons_of_mem _ hx))

/-- Helper: the selection fold returns the unique strict maximum of the
later timestamps whenever that maximum exceeds the initial time. -/
theorem selStep_argmax : ∀ (gs : List FwGroup) (a : Option FwGroup) (t : Int)
    (i : Nat) (hi : i < gs.length),
    t < laterTime (gs.get ⟨i, hi⟩) →
    (∀ j, (hj : j < gs.length) → j ≠ i →
      laterTime (gs.get ⟨j, hj⟩) < laterTime (gs.get ⟨i, hi⟩)) →
    (gs.foldl selStep (a, t)).1 = some (gs.get ⟨i, hi⟩) := by
  intro gs
  induction gs with
  | nil => intro a t i hi; exact absurd hi (by simp)
  | cons g rest ih =>
    intro a t i hi ht hmax
    cases i with
    | zero =>
      have hg : laterTime g > t := ht
      have hstep : selStep (a, t) g = (some g, laterTime g) := by
        unfold selStep
        rw [if_pos hg]
      rw [List.foldl_cons, hstep]
      have hrest : ∀ x ∈ rest, laterTime x ≤ laterTime g := by
        intro x hx
        obtain ⟨n, rfl⟩ := List.mem_iff_get.mp hx
        have h := hmax (n.1 + 1) (Nat.succ_lt_succ n.2) (Nat.succ_ne_zero n.1)
        exact le_of_lt h
      rw [selStep_const rest _ _ hrest]
      rfl
    | succ i' =>
      have hi' : i' < rest.length := Nat.lt_of_succ_lt_succ hi
      have hglt : laterTime g < laterTime (rest.get ⟨i', hi'⟩) :=
        hmax 0 (Nat.succ_pos _) (Ne.symm (Nat.succ_ne_zero i'))
      have ht2 : t < laterTime (rest.get ⟨i', hi'⟩) := ht
      have hmax' : ∀ j, (hj : j < rest.length) → j ≠ i' →
          laterTime (rest.get ⟨j, hj⟩) < laterTime (rest.get ⟨i', hi'⟩) := by
        intro j hj hne
        exact hmax (j + 1) (Nat.succ_lt_succ hj) (fun hc => hne (Nat.succ_injective hc))
      rw [List.foldl_cons]
      by_cases hgt : laterTime g > t
      · have hstep : selStep (a, t) g = (some g, laterTime g) := by
          unfold selStep
          rw [if_pos hgt]
        rw [hstep]
        exact ih (some g) (laterTime g) i' hi' hglt hmax'
      · have hstep : selStep (a, t) g = (a, t) := by
          unfold selStep
          rw [if_neg hgt]
        rw [hstep]
        exact ih a t i' hi' ht2 hmax'

/-- C7: the claim is false on the code.  Two complete groups whose later
modification timestamps are distinct with maximum -2 (all timestamps
nonpositive, as for pre-epoch build files): automatic selection returns no
group at all instead of the group carrying the maximum, because the scan
starts from the threshold `latest_time = 0`. -/
theorem C7_counterexample :
    laterTime ⟨"g1", "d", -5, -3⟩ < laterTime ⟨"g2", "d", -4, -2⟩
    ∧ selectLatest [⟨"g1", "d", -5, -3⟩, ⟨"g2", "d", -4, -2⟩] = none := by
  constructor
  · decide
  · decide

/-- C7 (amended): for every collection of two or more complete groups whose
per-group later timestamps are pairwise distinct, if additionally the
maximal later timestamp is strictly positive (exceeding the scan's initial
threshold 0), the automatic (empty-choice) selection returns the group
carrying that maximum. -/
theorem C7_main (gs : List FwGroup) (rest : List UserInput) (i : Nat)
    (hi : i < gs.length) (_hlen : 2 ≤ gs.length)
    (hmax : ∀ j, (hj : j < gs.length) → j ≠ i →
      laterTime (gs.get ⟨j, hj⟩) < laterTime (gs.get ⟨i, hi⟩))
    (hpos : 0 < laterTime (gs.get ⟨i, hi⟩)) :
    selectLatest gs = some (gs.get ⟨i, hi⟩)
    ∧ selLoop gs (.str "" :: rest) = some (some (gs.get ⟨i, hi⟩)) := by
  have hsel : selectLatest gs = some (gs.get ⟨i, hi⟩) := by
    unfold selectLatest
    exact selStep_argmax gs none 0 i hi hpos hmax
  have h0 : pyStrip "" = "" := rfl
  refine ⟨hsel, ?_⟩
  simp [selLoop, h0, hsel]

/-- C7 witness: the amended statement on two concrete groups with distinct
positive later timestamps. -/
theorem C7_witness :
    selectLatest [⟨"a", "d", 1, 2⟩, ⟨"b", "d", 5, 4⟩] = some ⟨"b", "d", 5, 4⟩
    ∧ selLoop [⟨"a", "d", 1, 2⟩, ⟨"b", "d", 5, 4⟩] [.str ""]
        = some (some ⟨"b", "d", 5, 4⟩) :=
  C7_main [⟨"a", "d", 1, 2⟩, ⟨"b", "d", 5, 4⟩] [] 1 (by decide) (by decide)
    (by decide) (by decide)

/-- C10: in the automatic (empty-choice) path the latest-group scan only
accepts a group whose later timestamp strictly exceeds the initial
threshold 0, so for a nonempty collection of complete groups whose later
timestamps are all nonpositive it selects no group: the scan yields `None`
and the empty-choice branch returns `None`, failing the operation. -/
theorem C10_main (gs : List FwGroup) (rest : List UserInput)
    (_hne : gs ≠ []) (hle : ∀ g ∈ gs, laterTime g ≤ 0) :
    selectLatest gs = none ∧ selLoop gs (.str "" :: rest) = some none := by
  have hsel : selectLatest gs = none := by
    unfold selectLatest
    rw [selStep_const gs none 0 hle]
  have h0 : pyStrip "" = "" := rfl
  refine ⟨hsel, ?_⟩
  simp [selLoop, h0, hsel]

/-- C10 witness: a concrete nonempty collection, all of whose timestamps
are nonpositive, on which the empty-choice selection returns `None`. -/
theorem C10_witness :
    selectLatest [⟨"a", "d", -1, 0⟩, ⟨"b", "d", -7, -2⟩] = none
    ∧ selLoop [⟨"a", "d", -1, 0⟩, ⟨"b", "d", -7, -2⟩] [.str ""] = some none :=
  C10_main [⟨"a", "d", -1, 0⟩, ⟨"b", "d", -7, -2⟩] [] (by decide) (by decide)

/-- C6: the claim is false on the code.  With two qualifying groups, the
non-numeric entry "abc" does not re-prompt: it terminates the selection
with no group chosen (the `ValueError` is caught together with
`KeyboardInterrupt` and the function returns `None`), whereas the same
script without it selects group 1. -/
theorem C6_counterexample :
    select_firmware_group [⟨"a", "d", 1, 2⟩, ⟨"b", "d", 3, 4⟩]
        [.str "abc", .str "1"] = some none
    ∧ select_firmware_group [⟨"a", "d", 1, 2⟩, ⟨"b", "d", 3, 4⟩]
        [.str "1"] = some (some ⟨"a", "d", 1, 2⟩) := by
  constructor
  · decide
  · decide

/-- C6 (amended): the interactive path accepts exactly the integer choices
in [1..N]; an out-of-range numeric entry re-prompts (the selection on the
remaining script), while a non-numeric entry and a caller interrupt both
terminate the selection with no group — a terminal failure rather than a
re-prompt. -/
theorem C6_main (gs : List FwGroup) (rest : List UserInput) (s : String)
    (n : Int) :
    (pyStrip s ≠ "" → pyIntOpt (pyStrip s) = some n →
      ¬(1 ≤ n ∧ n ≤ (gs.length : Int)) →
      selLoop gs (.str s :: rest) = selLoop gs rest)
    ∧ (pyStrip s ≠ "" → pyIntOpt (pyStrip s) = none →
        selLoop gs (.str s :: rest) = some none)
    ∧ (selLoop gs (.interrupt :: rest) = some none)
    ∧ (pyStrip s ≠ "" → pyIntOpt (pyStrip s) = some n →
        1 ≤ n → n ≤ (gs.length : Int) →
        selLoop gs (.str s :: rest) = some (gs.get? ((n - 1).toNat))) := by
  refine ⟨?_, ?_, rfl, ?_⟩
  · intro h1 h2 h3
    simp only [selLoop, if_neg h1, h2]
    rw [if_neg h3]
  · intro h1 h2
    simp only [selLoop, if_neg h1, h2]
  · intro h1 h2 h3 h4
    simp only [selLoop, if_neg h1, h2]
    rw [if_pos ⟨h3, h4⟩]

/-- C6 witness: the amended statement instantiated on two groups with the
out-of-range entry "5" followed by "1": the out-of-range entry re-prompts
and the next entry selects group 1. -/
theorem C6_witness :
    selLoop [⟨"a", "d", 1, 2⟩, ⟨"b", "d", 3, 4⟩] [.str "5", .str "1"]
      = selLoop [⟨"a", "d", 1, 2⟩, ⟨"b", "d", 3, 4⟩] [.str "1"] :=
  (C6_main [⟨"a", "d", 1, 2⟩, ⟨"b", "d", 3, 4⟩] [.str "1"] "5" 5).1
    (by decide) (by decide) (by decide)

/-- Helper: the common-run length is at most the first path's length. -/
theorem commonPrefixLen_le_left : ∀ a b : PathC, commonPrefixLen a b ≤ a.length := by
  intro a
  induction a with
  | nil => intro b; cases b <;> simp [commonPrefixLen]
  | cons x as ih =>
    intro b
    cases b with
    | nil => simp [commonPrefixLen]
    | cons y bs =>
      by_cases h : x = y
      · subst h
        have := ih bs
        simp only [commonPrefixLen, List.length_cons]
        rw [if_true]
        omega
      · simp [commonPrefixLen, h]

/-- Helper: the common-run length is at most the second path's length. -/
theorem commonPrefixLen_le_right : ∀ a b : PathC, commonPrefixLen a b ≤ b.length := by
  intro a
  induction a with
  | nil => intro b; cases b <;> simp [commonPrefixLen]
  | cons x as ih =>
    intro b
    cases b with
    | nil => simp [commonPrefixLen]
    | cons y bs =>
      by_cases h : x = y
      · subst h
        have := ih bs
        simp only [commonPrefixLen, List.length_cons]
        rw [if_true]
        omega
      · simp [commonPrefixLen, h]

/-- Helper: both paths agree on their common leading run. -/
theorem commonPrefixLen_take : ∀ a b : PathC,
    a.take (commonPrefixLen a b) = b.take (commonPrefixLen a b) := by
  intro a
  induction a with
  | nil => intro b; cases b <;> simp [commonPrefixLen]
  | cons x as ih =>
    intro b
    cases b with
    | nil => simp [commonPrefixLen]
    | cons y bs =>
      by_cases h : x = y
      · subst h
        simp only [commonPrefixLen]
        rw [if_true]
        simp only [List.take_succ_cons, List.cons.injEq, true_and]
        exact ih bs
      · simp [commonPrefixLen, h]

/-- Helper: normalization fixes a slash-free character list. -/
theorem winNormalize_self : ∀ c : List Char, '/' ∉ c → winNormalize c = c := by
  intro c
  induction c with
  | nil => intro _; rfl
  | cons ch t ih =>
    intro h
    rw [List.mem_cons, not_or] at h
    obtain ⟨h1, h2⟩ := h
    show (if ch = '/' then '\\' else ch) :: winNormalize t = ch :: t
    rw [if_neg (fun he => h1 he.symm), ih h2]

/-- Helper: on slash-free components, normalizing a rendering with either
host separator yields the backslash rendering. -/
theorem winNormalize_render (sep : Char) (hsep : sep = '/' ∨ sep = '\\') :
    ∀ cs : PathC, (∀ c ∈ cs, '/' ∉ c) →
    winNormalize (renderSep sep cs) = renderSep '\\' cs := by
  intro cs
  induction cs with
  | nil => intro _; rfl
  | cons c cs ih =>
    intro h
    cases cs with
    | nil => exact winNormalize_self c (h c (List.mem_cons_self _ _))
    | cons c2 t =>
      have hc : '/' ∉ c := h c (List.mem_cons_self _ _)
      have hrest : ∀ x ∈ c2 :: t, '/' ∉ x := fun x hx => h x (List.mem_cons_of_mem _ hx)
      show winNormalize (c ++ sep :: renderSep sep (c2 :: t))
        = c ++ '\\' :: renderSep '\\' (c2 :: t)
      rw [show winNormalize (c ++ sep :: renderSep sep (c2 :: t))
          = winNormalize c ++ winNormalize (sep :: renderSep sep (c2 :: t)) from
        List.map_append _ _ _]
      rw [winNormalize_self c hc]
      show c ++ ((if sep = '/' then '\\' else sep) :: winNormalize (renderSep sep (c2 :: t)))
        = c ++ '\\' :: renderSep '\\' (c2 :: t)
      rw [ih hrest]
      rcases hsep with h | h <;> simp [h]

/-- Helper: splitting consumes a separator-free chunk into the
accumulator. -/
theorem splitSepAux_chunk : ∀ (c rest acc : List Char), '\\' ∉ c →
    splitSepAux '\\' (c ++ rest) acc = splitSepAux '\\' rest (c.reverse ++ acc) := by
  intro c
  induction c with
  | nil => intro rest acc _; simp
  | cons ch t ih =>
    intro rest acc h
    rw [List.mem_cons, not_or] at h
    obtain ⟨h1, h2⟩ := h
    show (if ch = '\\' then acc.reverse :: splitSepAux '\\' (t ++ rest) []
        else splitSepAux '\\' (t ++ rest) (ch :: acc))
      = splitSepAux '\\' rest ((ch :: t).reverse ++ acc)
    rw [if_neg (fun he => h1 he.symm), ih rest (ch :: acc) h2]
    rw [List.reverse_cons, List.append_assoc]
    rfl

/-- Helper: splitting on the separator inverts rendering with it, for a
nonempty path of separator-free components. -/
theorem splitSep_render : ∀ (cs : PathC) (c : List Char),
    (∀ x ∈ c :: cs, '\\' ∉ x) →
    splitSep '\\' (renderSep '\\' (c :: cs)) = c :: cs := by
  intro cs
  induction cs with
  | nil =>
    intro c h
    have hc : '\\' ∉ c := h c (List.mem_cons_self _ _)
    show splitSepAux '\\' (renderSep '\\' [c]) [] = [c]
    have hch := splitSepAux_chunk c [] [] hc
    rw [List.append_nil] at hch
    show splitSepAux '\\' c [] = [c]
    rw [hch]
    simp [splitSepAux]
  | cons c2 t ih =>
    intro c h
    have hc : '\\' ∉ c := h c (List.mem_cons_self _ _)
    have hrest : ∀ x ∈ c2 :: t, '\\' ∉ x := fun x hx => h x (List.mem_cons_of_mem _ hx)
    show splitSepAux '\\' (c ++ '\\' :: renderSep '\\' (c2 :: t)) [] = c :: c2 :: t
    rw [splitSepAux_chunk c _ [] hc]
    simp only [splitSepAux]
    rw [if_true, List.append_nil, List.reverse_reverse]
    exact congrArg (c :: ·) (ih c2 hrest)

/-- Helper: resolution against a working directory splits over
concatenation. -/
theorem resolveRel_append (cwd a b : PathC) :
    resolveRel cwd (a ++ b) = resolveRel (resolveRel cwd a) b :=
  List.foldl_append _ _ _ _

/-- Helper: resolving a run of parent markers drops that many trailing
components. -/
theorem resolveRel_replicate : ∀ (m : Nat) (l : PathC),
    resolveRel l (List.replicate m dotdot) = l.take (l.length - m) := by
  intro m
  induction m with
  | zero => intro l; simp [resolveRel]
  | succ k ih =>
    intro l
    rw [List.replicate_succ]
    have hstep : resolveRel l (dotdot :: List.replicate k dotdot)
        = resolveRel l.dropLast (List.replicate k dotdot) := by
      show List.foldl _ (if dotdot = dotdot then l.dropLast else l ++ [dotdot]) _
        = resolveRel l.dropLast (List.replicate k dotdot)
      rw [if_pos rfl]
      rfl
    rw [hstep, ih, List.dropLast_eq_take, List.take_take, List.length_take]
    congr 1
    omega

/-- Helper: resolving a path free of parent markers appends it. -/
theorem resolveRel_no_dotdot : ∀ (cs p : PathC), (∀ c ∈ cs, c ≠ dotdot) →
    resolveRel p cs = p ++ cs := by
  intro cs
  induction cs with
  | nil => intro p _; simp [resolveRel]
  | cons c t ih =>
    intro p h
    have hc : c ≠ dotdot := h c (List.mem_cons_self _ _)
    have ht : ∀ x ∈ t, x ≠ dotdot := fun x hx => h x (List.mem_cons_of_mem _ hx)
    show List.foldl _ (if c = dotdot then p.dropLast else p ++ [c]) t = p ++ c :: t
    rw [if_neg hc]
    have := ih (p ++ [c]) ht
    rw [show List.foldl (fun acc c => if c = dotdot then acc.dropLast else acc ++ [c])
        (p ++ [c]) t = resolveRel (p ++ [c]) t from rfl, this]
    simp

/-- Helper: the full round trip for one artifact path: the string produced
by `create_relative_path` under either host separator convention, split on
the normalized separator and resolved against the working directory, is the
original absolute path. -/
theorem createRel_roundtrip (hostSep : Char) (hsep : hostSep = '/' ∨ hostSep = '\\')
    (cwd target : PathC) (htg : wfPath target) (hne : target ≠ cwd) :
    resolveRel cwd (splitSep '\\' (create_relative_path hostSep cwd target)) = target := by
  have hkle1 : commonPrefixLen target cwd ≤ target.length := commonPrefixLen_le_left _ _
  have hkle2 : commonPrefixLen target cwd ≤ cwd.length := commonPrefixLen_le_right _ _
  have hrne : List.replicate (cwd.length - commonPrefixLen target cwd) dotdot
      ++ target.drop (commonPrefixLen target cwd) ≠ [] := by
    intro h0
    obtain ⟨h1, h2⟩ := List.append_eq_nil.mp h0
    have hm : cwd.length - commonPrefixLen target cwd = 0 :=
      (List.replicate_eq_nil_iff dotdot).mp h1
    have hlen2 : commonPrefixLen target cwd = cwd.length := by omega
    have hlen1 : commonPrefixLen target cwd = target.length := by
      have := List.drop_eq_nil_iff.mp h2
      omega
    apply hne
    calc target = target.take (commonPrefixLen target cwd) := by
          rw [hlen1, List.take_length]
      _ = cwd.take (commonPrefixLen target cwd) := commonPrefixLen_take target cwd
      _ = cwd := by rw [hlen2, List.take_length]
  have hrel : relpathComps target cwd
      = List.replicate (cwd.length - commonPrefixLen target cwd) dotdot
        ++ target.drop (commonPrefixLen target cwd) := by
    unfold relpathComps
    dsimp only
    rw [if_neg hrne]
  have hsl : ∀ c ∈ List.replicate (cwd.length - commonPrefixLen target cwd) dotdot
      ++ target.drop (commonPrefixLen target cwd), '/' ∉ c ∧ '\\' ∉ c := by
    intro c hc
    rcases List.mem_append.mp hc with hrep | hdrop
    · rw [List.eq_of_mem_replicate hrep]
      exact ⟨by decide, by decide⟩
    · have := htg c (List.mem_of_mem_drop hdrop)
      exact ⟨this.1, this.2.1⟩
  have hdd : ∀ c ∈ target.drop (commonPrefixLen target cwd), c ≠ dotdot :=
    fun c hc => (htg c (List.mem_of_mem_drop hc)).2.2
  have hsplit : splitSep '\\' (create_relative_path hostSep cwd target)
      = List.replicate (cwd.length - commonPrefixLen target cwd) dotdot
        ++ target.drop (commonPrefixLen target cwd) := by
    unfold create_relative_path
    rw [hrel, winNormalize_render hostSep hsep _ (fun c hc => (hsl c hc).1)]
    cases hr : List.replicate (cwd.length - commonPrefixLen target cwd) dotdot
        ++ target.drop (commonPrefixLen target cwd) with
    | nil => exact absurd hr hrne
    | cons c cs =>
      exact splitSep_render cs c (fun x hx => (hsl x (hr.symm ▸ hx)).2)
  rw [hsplit, resolveRel_append, resolveRel_replicate, resolveRel_no_dotdot _ _ hdd]
  have hk : cwd.length - (cwd.length - commonPrefixLen target cwd)
      = commonPrefixLen target cwd := by omega
  rw [hk, ← commonPrefixLen_take target cwd, List.take_append_drop]

/-- C8: for every resolved group (its two absolute artifact paths, with
separator-free components) and working directory, the two relative path
strings produced for the configuration document by `create_relative_path`,
re-parsed by splitting on the normalized backslash separator and
re-resolved against the same working directory, denote the original
absolute artifact paths — under both host separator conventions, the
document's separators having been normalized to backslashes. -/
theorem C8_main (hostSep : Char) (cwd binP elfP : PathC)
    (hsep : hostSep = '/' ∨ hostSep = '\\')
    (hbin : wfPath binP) (helf : wfPath elfP)
    (hb : binP ≠ cwd) (he : elfP ≠ cwd) :
    resolveRel cwd (splitSep '\\' (create_relative_path hostSep cwd binP)) = binP
    ∧ resolveRel cwd (splitSep '\\' (create_relative_path hostSep cwd elfP)) = elfP :=
  ⟨createRel_roundtrip hostSep hsep cwd binP hbin hb,
    createRel_roundtrip hostSep hsep cwd elfP helf he⟩

/-- C8 witness: the round trip on a concrete working directory and group
under the forward-slash host convention (one artifact beside the working
directory, exercising a ".." component). -/
theorem C8_witness :
    resolveRel ["home".data, "proj".data]
        (splitSep '\\' (create_relative_path '/' ["home".data, "proj".data]
          ["home".data, "proj".data, "Debug".data, "app.bin".data]))
      = ["home".data, "proj".data, "Debug".data, "app.bin".data]
    ∧ resolveRel ["home".data, "proj".data]
        (splitSep '\\' (create_relative_path '/' ["home".data, "proj".data]
          ["home".data, "other".data, "app.elf".data]))
      = ["home".data, "other".data, "app.elf".data] :=
  C8_main '/' ["home".data, "proj".data]
    ["home".data, "proj".data, "Debug".data, "app.bin".data]
    ["home".data, "other".data, "app.elf".data]
    (Or.inl rfl) (by decide) (by decide) (by decide) (by decide)

/-- Helper: occurrence count of a file in the per-pattern concatenation of
filterings of the tree. -/
theorem count_flatten_filter (tree : List (List String)) (f : List String) :
    ∀ pats : List (List PatComp),
    ((pats.map (fun pat => tree.filter (fun g => rglobMatch pat g))).flatten).count f
      = (pats.countP (fun pat => rglobMatch pat f)) * tree.count f := by
  intro pats
  induction pats with
  | nil => simp
  | cons p ps ih =>
    simp only [List.map_cons, List.flatten_cons, List.count_append, ih,
      List.countP_cons]
    by_cases hp : rglobMatch p f = true
    · rw [List.count_filter hp, if_pos hp]
      ring
    · have hnotmem : f ∉ tree.filter (fun g => rglobMatch p g) := by
        intro hmem
        exact hp (List.of_mem_filter hmem)
      rw [List.count_eq_zero.mpr hnotmem, if_neg hp]
      ring

/-- C9: the claim is false on the code.  A tree holding the single file
".pio/build/env/app.bin" yields a scan result in which that file occurs
twice — it matches both the plain build pattern and the PlatformIO pattern,
and each pattern loop appends it — so the result is not a set with each
matching file occurring exactly once. -/
theorem C9_counterexample :
    (scan_for_firmware_files [[".pio", "build", "env", "app.bin"]]).count
        [".pio", "build", "env", "app.bin"] = 2 := by
  decide

/-- C9 (amended): the scanner returns every file of the tree matching at
least one of the fixed patterns, but as a list recording one occurrence per
matching pattern: each file's multiplicity in the result is the number of
patterns its path matches times its multiplicity in the tree, with no
deduplication. -/
theorem C9_main (tree : List (List String)) (f : List String) :
    (scan_for_firmware_files tree).count f
      = ((debug_patterns ++ pio_patterns).countP (fun pat => rglobMatch pat f))
          * tree.count f := by
  unfold scan_for_firmware_files
  rw [List.count_append, count_flatten_filter tree f debug_patterns,
    count_flatten_filter tree f pio_patterns, List.countP_append]
  ring

end Wokwi
